import Mathlib

/-!
Verification of the mrpe provider (agents/wnx/src/engine/providers/mrpe.cpp)
of the checkmk Windows agent.  The C++ code is shallowly embedded: the cache
is an association list with map observables, steady-clock time points are
integer seconds, and the external child-process primitive (TheMiniBox) is
represented by the outcome it reports back to ExecMrpeEntry.
-/

set_option linter.unusedVariables false

namespace CmaProvider

/-- MrpeCache::LineState: freshness classification of a cached line. -/
inductive LineState where
  | absent
  | old
  | ready
  deriving DecidableEq

/-- MrpeCache::Line: one cached result line.  Fields mirror the C++ member
variables: stored text data, the add age flag, the maximal age in seconds
and the capture time point tp (steady clock, modelled as integer seconds;
a default-constructed time point is 0). -/
structure Line where
  data : String := ""
  add_age : Bool := false
  max_age : Int := 0
  tp : Int := 0
  deriving DecidableEq

/-- The member map MrpeCache::cache_ : description to Line, modelled as an
association list with unique keys carrying the observable behaviour of
std::unordered_map. -/
abbrev MrpeCache := List (String × Line)

/-- Lookup of a key in the cache map (cache_.find / cache_.contains). -/
def findLine : MrpeCache → String → Option Line
  | [], _ => none
  | (k, l) :: rest, key => if k = key then some l else findLine rest key

/-- Map store cache_[key] = l: replaces the row of an existing key,
otherwise adds a row for the key. -/
def setLine : MrpeCache → String → Line → MrpeCache
  | [], key, l => [(key, l)]
  | (k, v) :: rest, key, l =>
    if k = key then (key, l) :: rest else (k, v) :: setLine rest key l

/-- MrpeCache::createLine: inserts a default-constructed Line (empty data,
default time point) carrying the given max age and add age flag; an
existing row for the key is overwritten.  The catch-all for allocation
exceptions in the C++ has no counterpart: the model cannot throw. -/
def createLine (c : MrpeCache) (key : String) (max_age : Int) (add_age : Bool) :
    MrpeCache :=
  setLine c key { data := "", add_age := add_age, max_age := max_age, tp := 0 }

/-- MrpeCache::updateLine: an unknown key is logged and reported as failure
with no mutation; a known key gets the new data and a capture time point
reset to now. -/
def updateLine (c : MrpeCache) (now : Int) (key : String) (data : String) :
    Bool × MrpeCache :=
  match findLine c key with
  | none => (false, c)
  | some l => (true, setLine c key { l with data := data, tp := now })

/-- The age annotation appended by getLineData, after
fmt::format(" ({};{})", age, max_age). -/
def ageSuffix (age maxAge : Int) : String :=
  " (" ++ toString age ++ ";" ++ toString maxAge ++ ")"

/-- MrpeCache::getLineData: unknown key gives ("", absent); a known key with
empty stored data gives ("", old); otherwise the age is now minus the
capture time point, the text is the stored data plus the age annotation
when the add age flag is set, and the state is old when the age exceeds
the max age, ready otherwise. -/
def getLineData (c : MrpeCache) (now : Int) (key : String) :
    String × LineState :=
  match findLine c key with
  | none => ("", LineState.absent)
  | some line =>
    if line.data = "" then ("", LineState.old)
    else
      let diff := now - line.tp
      let result :=
        line.data ++ (if line.add_age then ageSuffix diff line.max_age else "")
      let status :=
        if diff > line.max_age then LineState.old else LineState.ready
      (result, status)

@[simp]
theorem findLine_setLine_self (c : MrpeCache) (k : String) (l : Line) :
    findLine (setLine c k l) k = some l := by
  induction c with
  | nil => simp [setLine, findLine]
  | cons hd tl ih =>
    obtain ⟨k0, l0⟩ := hd
    by_cases h : k0 = k
    · simp [setLine, findLine, h]
    · simp [setLine, findLine, h, ih]

theorem findLine_setLine_ne (c : MrpeCache) (k k0 : String) (l : Line)
    (h : k0 ≠ k) : findLine (setLine c k l) k0 = findLine c k0 := by
  have hne : ¬k = k0 := fun hh => h hh.symm
  induction c with
  | nil => simp [setLine, findLine, hne]
  | cons hd tl ih =>
    obtain ⟨k1, l1⟩ := hd
    by_cases h1 : k1 = k
    · have hne1 : ¬k1 = k0 := by rw [h1]; exact hne
      simp [setLine, findLine, h1, hne, hne1]
    · by_cases h2 : k1 = k0
      · simp [setLine, findLine, h1, h2, h]
      · simp [setLine, findLine, h1, h2, ih]

/-- C2: for every key, getLineData returns ("", absent) when the key was
never created; ("", old) when the key exists but its stored text is empty;
otherwise, with age = now minus the capture time point of the line, state
ready if age is at most max_age and old if age exceeds max_age, and text
equal to the stored data with the suffix " (age;max_age)" appended exactly
when the add_age flag of that line is set. -/
theorem c2_getLineData_spec (c : MrpeCache) (now : Int) (k : String) :
    (findLine c k = none → getLineData c now k = ("", LineState.absent)) ∧
    (∀ l : Line, findLine c k = some l → l.data = "" →
      getLineData c now k = ("", LineState.old)) ∧
    (∀ l : Line, findLine c k = some l → l.data ≠ "" →
      getLineData c now k =
        (l.data ++ (if l.add_age then ageSuffix (now - l.tp) l.max_age else ""),
         if now - l.tp ≤ l.max_age then LineState.ready else LineState.old)) := by
  refine ⟨?_, ?_, ?_⟩
  · intro h
    simp [getLineData, h]
  · intro l hl hdata
    simp [getLineData, hl, hdata]
  · intro l hl hdata
    by_cases hage : now - l.tp ≤ l.max_age
    · simp [getLineData, hl, hdata, hage, not_lt.mpr hage]
    · simp [getLineData, hl, hdata, hage, lt_of_not_ge hage]

/-- Witness for C2 at a concrete cache: one line with data "X", add_age set,
max age 10, captured at time 0, read at time 3. -/
theorem c2_getLineData_spec_witness :
    getLineData [("k", ⟨"X", true, 10, 0⟩)] 3 "k" = ("X (3;10)", LineState.ready) := by
  have h :=
    (c2_getLineData_spec [("k", ⟨"X", true, 10, 0⟩)] 3 "k").2.2
      ⟨"X", true, 10, 0⟩ rfl (by decide)
  rw [h]
  decide

/-- C9: updateLine on a never-created key returns failure and leaves the
cache unchanged (no row inserted); on a known key it returns success and
stores the data with the capture time point reset to now. -/
theorem c9_updateLine_spec (c : MrpeCache) (now : Int) (k d : String) :
    (findLine c k = none → updateLine c now k d = (false, c)) ∧
    (∀ l : Line, findLine c k = some l →
      (updateLine c now k d).1 = true ∧
      findLine (updateLine c now k d).2 k = some { l with data := d, tp := now }) := by
  constructor
  · intro h
    simp [updateLine, h]
  · intro l hl
    refine ⟨?_, ?_⟩
    · simp [updateLine, hl]
    · simp [updateLine, hl]

/-- Witness for C9: updating a never-created key of the empty cache fails
and inserts nothing; updating an existing key stores the new data. -/
theorem c9_updateLine_spec_witness :
    updateLine ([] : MrpeCache) 0 "k" "v" = (false, []) ∧
    findLine (updateLine [("k", ⟨"", false, 10, 0⟩)] 7 "k" "v").2 "k" =
      some ⟨"v", false, 10, 7⟩ := by
  constructor
  · exact (c9_updateLine_spec [] 0 "k" "v").1 rfl
  · have h :=
      ((c9_updateLine_spec [("k", ⟨"", false, 10, 0⟩)] 7 "k" "v").2
        ⟨"", false, 10, 0⟩ rfl).2
    rw [h]

/-- C10: updateLine on a key present in the cache changes only the stored
text and the capture time point of that row; the max_age and add_age fields
of the row, and the rows of every other key, are unchanged. -/
theorem c10_updateLine_frame (c : MrpeCache) (now : Int) (k d : String)
    (l : Line) (h : findLine c k = some l) :
    (∃ l2 : Line, findLine (updateLine c now k d).2 k = some l2 ∧
      l2.data = d ∧ l2.tp = now ∧
      l2.max_age = l.max_age ∧ l2.add_age = l.add_age) ∧
    (∀ k0 : String, k0 ≠ k →
      findLine (updateLine c now k d).2 k0 = findLine c k0) := by
  constructor
  · refine ⟨{ l with data := d, tp := now }, ?_, rfl, rfl, rfl, rfl⟩
    simp [updateLine, h]
  · intro k0 hk0
    simp [updateLine, h, findLine_setLine_ne c k k0 _ hk0]

/-- Witness for C10 at a two-row cache: updating row "a" leaves row "b"
untouched. -/
theorem c10_updateLine_frame_witness :
    findLine (updateLine [("a", ⟨"1", false, 5, 0⟩), ("b", ⟨"2", true, 6, 0⟩)]
        9 "a" "Z").2 "b" = some ⟨"2", true, 6, 0⟩ := by
  have h :=
    (c10_updateLine_frame [("a", ⟨"1", false, 5, 0⟩), ("b", ⟨"2", true, 6, 0⟩)]
      9 "a" "Z" ⟨"1", false, 5, 0⟩ rfl).2 "b" (by decide)
  rw [h]
  rfl

/-- MrpeCachingInfo from mrpe.h: the optional caching policy of an entry,
a maximal age in seconds and the add age flag. -/
structure MrpeCachingInfo where
  max_age : Int
  add_age : Bool
  deriving DecidableEq

/-- MrpeEntry from mrpe.h: one resolved check entry.  Field names follow the
C++ members; defaults are the values of a freshly constructed entry. -/
structure MrpeEntry where
  run_as_user_ : String := ""
  description_ : String := ""
  full_path_name_ : String := ""
  exe_name_ : String := ""
  command_line_ : String := ""
  caching_ : Option MrpeCachingInfo := none
  deriving DecidableEq

/-- Outcome of the external child-process primitive (TheMiniBox, outside
this translation unit) as observed by ExecMrpeEntry: the start failed, the
wait timed out or the process broke, or the process finished with an exit
code and captured output (already decoded from UTF-16 where needed, which
is external I/O). -/
inductive ProcResult where
  | startFailure
  | timeoutOrBroken
  | finished (error_code : Nat) (output : String)
  deriving DecidableEq

/-- Whitespace in the sense of the C isspace used by tools::AllTrim. -/
def isSpaceChar (c : Char) : Bool :=
  c = ' ' || c = '\t' || c = '\n' || c = '\x0b' || c = '\x0c' || c = '\r'

/-- tools::AllTrim (generic tooling outside src/): removes surrounding
whitespace, per the spec wording "trim captured output of surrounding
whitespace". -/
def AllTrim (s : String) : String :=
  String.mk (((s.toList.dropWhile isSpaceChar).reverse.dropWhile
    isSpaceChar).reverse)

/-- FixCrCnForMrpe from mrpe.cpp: every newline becomes the reserved byte 1
and every carriage return becomes a space. -/
def FixCrCnForMrpe (s : String) : String :=
  String.mk (s.toList.map (fun ch =>
    if ch = '\n' then '\x01' else if ch = '\r' then ' ' else ch))

/-- ExecMrpeEntry from mrpe.cpp: builds the prefix "(exe_name) description "
and then, depending on the process outcome, appends the legacy failure
text, returns the empty string, or appends exit code and transformed
output. -/
def ExecMrpeEntry (entry : MrpeEntry) (proc : ProcResult) : String :=
  let result := "(" ++ entry.exe_name_ ++ ") " ++ entry.description_ ++ " "
  match proc with
  | ProcResult.startFailure =>
      result ++ "3 Unable to execute - plugin may be missing."
  | ProcResult.timeoutOrBroken => ""
  | ProcResult.finished code output =>
      result ++ toString code ++ " " ++ FixCrCnForMrpe (AllTrim output)

/-- Environment of one MrpeEntryResult call: the process outcome and the
three successive steady-clock reads (first getLineData, updateLine, second
getLineData), as integer seconds. -/
structure ExecCtx where
  proc : ProcResult
  t1 : Int
  t2 : Int
  t3 : Int
  deriving DecidableEq

/-- MrpeEntryResult from mrpe.cpp: entries without a caching policy always
execute fresh; with a policy the cached state decides between returning the
cached text (ready), create-execute-update-reread (absent, via the
fallthrough) and execute-update-reread (old). -/
def MrpeEntryResult (entry : MrpeEntry) (cache : MrpeCache) (ctx : ExecCtx) :
    String × MrpeCache :=
  match entry.caching_ with
  | none => (ExecMrpeEntry entry ctx.proc, cache)
  | some ci =>
    let cached := getLineData cache ctx.t1 entry.description_
    match cached.2 with
    | LineState.ready => (cached.1, cache)
    | LineState.absent =>
      let c1 := createLine cache entry.description_ ci.max_age ci.add_age
      let result := ExecMrpeEntry entry ctx.proc
      let c2 := (updateLine c1 ctx.t2 entry.description_ result).2
      ((getLineData c2 ctx.t3 entry.description_).1, c2)
    | LineState.old =>
      let result := ExecMrpeEntry entry ctx.proc
      let c2 := (updateLine cache ctx.t2 entry.description_ result).2
      ((getLineData c2 ctx.t3 entry.description_).1, c2)

/-- C5: for every entry whose child process fails to start, ExecMrpeEntry
returns exactly "(exe_name) description 3 Unable to execute - plugin may
be missing." with the fields of the entry substituted.  The function is
total: no exception escapes. -/
theorem c5_exec_start_failure (entry : MrpeEntry) :
    ExecMrpeEntry entry ProcResult.startFailure =
      "(" ++ entry.exe_name_ ++ ") " ++ entry.description_ ++
        " 3 Unable to execute - plugin may be missing." := by
  show ("(" ++ entry.exe_name_ ++ ") " ++ entry.description_ ++ " ") ++
      "3 Unable to execute - plugin may be missing." = _
  rw [String.append_assoc]
  exact congrArg
    (fun s => "(" ++ entry.exe_name_ ++ ") " ++ entry.description_ ++ s) rfl

/-- C1: for every entry with a caching policy, MrpeEntryResult returns the
cached text untouched when the cached state is ready (not running the
process and leaving the cache as it was); on state absent it creates the
line, executes fresh, stores the fresh result via updateLine and re-reads
getLineData; on state old it takes the same path without createLine; and
on the absent path with add_age set the returned text carries the age
annotation relative to the just-written capture time point.  For every
entry without a caching policy it always executes fresh. -/
theorem c1_entry_result_paths (entry : MrpeEntry) (cache : MrpeCache)
    (ctx : ExecCtx) :
    (entry.caching_ = none →
      MrpeEntryResult entry cache ctx = (ExecMrpeEntry entry ctx.proc, cache)) ∧
    (∀ ci : MrpeCachingInfo, entry.caching_ = some ci →
      (getLineData cache ctx.t1 entry.description_).2 = LineState.ready →
      MrpeEntryResult entry cache ctx =
        ((getLineData cache ctx.t1 entry.description_).1, cache)) ∧
    (∀ ci : MrpeCachingInfo, entry.caching_ = some ci →
      (getLineData cache ctx.t1 entry.description_).2 = LineState.absent →
      MrpeEntryResult entry cache ctx =
        ((getLineData
            (updateLine (createLine cache entry.description_ ci.max_age ci.add_age)
              ctx.t2 entry.description_ (ExecMrpeEntry entry ctx.proc)).2
            ctx.t3 entry.description_).1,
         (updateLine (createLine cache entry.description_ ci.max_age ci.add_age)
            ctx.t2 entry.description_ (ExecMrpeEntry entry ctx.proc)).2)) ∧
    (∀ ci : MrpeCachingInfo, entry.caching_ = some ci →
      (getLineData cache ctx.t1 entry.description_).2 = LineState.old →
      MrpeEntryResult entry cache ctx =
        ((getLineData
            (updateLine cache ctx.t2 entry.description_
              (ExecMrpeEntry entry ctx.proc)).2
            ctx.t3 entry.description_).1,
         (updateLine cache ctx.t2 entry.description_
            (ExecMrpeEntry entry ctx.proc)).2)) ∧
    (∀ ci : MrpeCachingInfo, entry.caching_ = some ci →
      (getLineData cache ctx.t1 entry.description_).2 = LineState.absent →
      ExecMrpeEntry entry ctx.proc ≠ "" → ci.add_age = true →
      (MrpeEntryResult entry cache ctx).1 =
        ExecMrpeEntry entry ctx.proc ++
          ageSuffix (ctx.t3 - ctx.t2) ci.max_age) := by
  refine ⟨?_, ?_, ?_, ?_, ?_⟩
  · intro h
    simp [MrpeEntryResult, h]
  · intro ci hci hst
    simp [MrpeEntryResult, hci, hst]
  · intro ci hci hst
    simp [MrpeEntryResult, hci, hst]
  · intro ci hci hst
    simp [MrpeEntryResult, hci, hst]
  · intro ci hci hst hfresh hadd
    simp only [MrpeEntryResult, hci, hst]
    have h1 : findLine (createLine cache entry.description_ ci.max_age ci.add_age)
        entry.description_ = some ⟨"", ci.add_age, ci.max_age, 0⟩ :=
      findLine_setLine_self cache entry.description_ _
    simp only [updateLine, h1]
    have h2 : findLine
        (setLine (createLine cache entry.description_ ci.max_age ci.add_age)
          entry.description_
          ⟨ExecMrpeEntry entry ctx.proc, ci.add_age, ci.max_age, ctx.t2⟩)
        entry.description_ =
        some ⟨ExecMrpeEntry entry ctx.proc, ci.add_age, ci.max_age, ctx.t2⟩ :=
      findLine_setLine_self _ entry.description_ _
    simp only [getLineData, h2]
    simp [hfresh, hadd]

/-- Witness for C1: a caching entry with add_age set, an empty cache
(state absent) and a process finishing with exit code 0 and output "OK";
executed at time 5 and re-read at time 7 the returned text carries the age
annotation " (2;10)". -/
theorem c1_entry_result_paths_witness :
    (MrpeEntryResult
        { description_ := "D", exe_name_ := "e.exe",
          caching_ := some ⟨10, true⟩ }
        [] ⟨ProcResult.finished 0 "OK", 0, 5, 7⟩).1 =
      "(e.exe) D 0 OK (2;10)" := by
  have h :=
    ((((c1_entry_result_paths
        { description_ := "D", exe_name_ := "e.exe",
          caching_ := some ⟨10, true⟩ }
        [] ⟨ProcResult.finished 0 "OK", 0, 5, 7⟩).2).2).2).2
      ⟨10, true⟩ rfl (by decide) (by decide) rfl
  rw [h]
  decide

/-- Loop body of the sequential branch of MrpeProvider::makeBody:
out += MrpeEntryResult(entry, cache_, timeout) + a newline, threading the
cache. -/
def mrpeStep (acc : String × MrpeCache) (item : MrpeEntry × ExecCtx) :
    String × MrpeCache :=
  let r := MrpeEntryResult item.1 acc.2 item.2
  (acc.1 ++ (r.1 ++ "\n"), r.2)

/-- Sequential branch of MrpeProvider::makeBody: iterate over the entries
in order, appending each resolved line plus newline to the accumulator.
Each entry carries its own process outcome and clock reads.  The parallel
branch differs only in the (unordered) interleaving of the same per-entry
appends under a lock and is not modelled. -/
def makeBodySeq (items : List (MrpeEntry × ExecCtx)) (cache : MrpeCache) :
    String × MrpeCache :=
  items.foldl mrpeStep ("", cache)

/-- The resolved line of each entry, in order, threading the cache through
the successive MrpeEntryResult calls. -/
def resolvedLines : List (MrpeEntry × ExecCtx) → MrpeCache → List String
  | [], _ => []
  | i :: rest, c =>
    (MrpeEntryResult i.1 c i.2).1 ::
      resolvedLines rest (MrpeEntryResult i.1 c i.2).2

/-- Concatenation of lines, each followed by exactly one newline. -/
def joinLines : List String → String
  | [] => ""
  | l :: rest => (l ++ "\n") ++ joinLines rest

theorem foldl_mrpeStep_acc (items : List (MrpeEntry × ExecCtx)) :
    ∀ (s : String) (c : MrpeCache),
      List.foldl mrpeStep (s, c) items =
        (s ++ (List.foldl mrpeStep ("", c) items).1,
         (List.foldl mrpeStep ("", c) items).2) := by
  induction items with
  | nil =>
    intro s c
    simp [String.append_empty]
  | cons i rest ih =>
    intro s c
    simp only [List.foldl_cons]
    rw [show mrpeStep (s, c) i =
        (s ++ ((MrpeEntryResult i.1 c i.2).1 ++ "\n"),
         (MrpeEntryResult i.1 c i.2).2) from rfl]
    rw [show mrpeStep ("", c) i =
        ("" ++ ((MrpeEntryResult i.1 c i.2).1 ++ "\n"),
         (MrpeEntryResult i.1 c i.2).2) from rfl]
    rw [ih (s ++ ((MrpeEntryResult i.1 c i.2).1 ++ "\n"))
        (MrpeEntryResult i.1 c i.2).2]
    rw [ih ("" ++ ((MrpeEntryResult i.1 c i.2).1 ++ "\n"))
        (MrpeEntryResult i.1 c i.2).2]
    simp [String.empty_append, String.append_assoc]

/-- C4: makeBody over an empty entry set returns the empty string; in
sequential mode the result is the concatenation, in entry order, of each
entry's resolved line followed by exactly one newline, and for two entries
the lines appear in order first then second. -/
theorem c4_makeBody_sequential :
    (∀ c : MrpeCache, makeBodySeq [] c = ("", c)) ∧
    (∀ (items : List (MrpeEntry × ExecCtx)) (c : MrpeCache),
      (makeBodySeq items c).1 = joinLines (resolvedLines items c)) ∧
    (∀ (i1 i2 : MrpeEntry × ExecCtx) (c : MrpeCache),
      (makeBodySeq [i1, i2] c).1 =
        (MrpeEntryResult i1.1 c i1.2).1 ++ "\n" ++
          ((MrpeEntryResult i2.1 (MrpeEntryResult i1.1 c i1.2).2 i2.2).1 ++
            "\n")) := by
  have hjoin : ∀ (items : List (MrpeEntry × ExecCtx)) (c : MrpeCache),
      (makeBodySeq items c).1 = joinLines (resolvedLines items c) := by
    intro items
    induction items with
    | nil =>
      intro c
      rfl
    | cons i rest ih =>
      intro c
      simp only [makeBodySeq, List.foldl_cons]
      rw [show mrpeStep ("", c) i =
          ("" ++ ((MrpeEntryResult i.1 c i.2).1 ++ "\n"),
           (MrpeEntryResult i.1 c i.2).2) from rfl]
      rw [foldl_mrpeStep_acc rest _ (MrpeEntryResult i.1 c i.2).2]
      have ih2 := ih (MrpeEntryResult i.1 c i.2).2
      simp only [makeBodySeq] at ih2
      simp [resolvedLines, joinLines, ih2, String.empty_append]
  refine ⟨?_, hjoin, ?_⟩
  · intro c
    rfl
  · intro i1 i2 c
    rw [hjoin [i1, i2] c]
    simp [resolvedLines, joinLines, String.append_empty, String.append_assoc]

/-- A concrete entry without caching policy, used for the timeout
scenario. -/
def entryT : MrpeEntry := { description_ := "T", exe_name_ := "t.exe" }

/-- Counterexample to C6: an entry whose started process times out makes
ExecMrpeEntry return the empty string, but the report-assembling loop in
makeBody still appends the result newline-terminated, so the body over
that one entry is a lone newline, not the empty string: the entry does
contribute a (blank) line to the report body. -/
theorem c6_counterexample :
    ExecMrpeEntry entryT ProcResult.timeoutOrBroken = "" ∧
    (makeBodySeq [(entryT, ⟨ProcResult.timeoutOrBroken, 0, 0, 0⟩)] []).1 =
      "\n" ∧
    ("\n" : String) ≠ "" := by
  refine ⟨rfl, by decide, by decide⟩

/-- C6 as amended: for every entry whose child process starts but then
times out or terminates abnormally, ExecMrpeEntry returns the empty
string; the report-assembling caller appends this result and a newline
like any other, so the entry contributes an empty line (a lone newline)
to the report body. -/
theorem c6_timeout_contribution (entry : MrpeEntry)
    (h : entry.caching_ = none) (t1 t2 t3 : Int)
    (rest : List (MrpeEntry × ExecCtx)) (c : MrpeCache) :
    ExecMrpeEntry entry ProcResult.timeoutOrBroken = "" ∧
    (makeBodySeq ((entry, ⟨ProcResult.timeoutOrBroken, t1, t2, t3⟩) :: rest)
        c).1 = "\n" ++ (makeBodySeq rest c).1 := by
  constructor
  · rfl
  · simp only [makeBodySeq, List.foldl_cons]
    rw [show mrpeStep ("", c) (entry, ⟨ProcResult.timeoutOrBroken, t1, t2, t3⟩)
        = ("\n", c) from by
      simp [mrpeStep, MrpeEntryResult, h, ExecMrpeEntry, String.empty_append]]
    rw [foldl_mrpeStep_acc rest "\n" c]

/-- Witness for C6 as amended, at the concrete non-caching entry entryT
with an empty trailing entry list and empty cache. -/
theorem c6_timeout_contribution_witness :
    ExecMrpeEntry entryT ProcResult.timeoutOrBroken = "" ∧
    (makeBodySeq [(entryT, ⟨ProcResult.timeoutOrBroken, 0, 0, 0⟩)] []).1 =
      "\n" ++ (makeBodySeq ([] : List (MrpeEntry × ExecCtx)) ([] : MrpeCache)).1 :=
  c6_timeout_contribution entryT rfl 0 0 0 [] []

/-- Helper for the quoted alternatives of TokenizeString: the regex pieces
match one or more characters other than the quote, then the closing quote,
so a match ends at the first closing quote and needs a nonempty inside.
Returns the inside and the remainder after the closing quote, or none when
the alternative cannot match at this position. -/
def findClosing (q : Char) (rest : List Char) :
    Option (List Char × List Char) :=
  let pre := rest.takeWhile (fun c => c != q)
  match rest.dropWhile (fun c => c != q) with
  | [] => none
  | _ :: tl => if pre.isEmpty then none else some (pre, tl)

/-- Characters matched by the unquoted alternative of the TokenizeString
regex: anything except a double quote, a space or a tab. -/
def plainChar (c : Char) : Bool :=
  !(c == '"' || c == ' ' || c == '\t')

/-- Scanner equivalent to repeated regex search with the ordered
alternation of TokenizeString: at each position try a double-quoted piece,
then a single-quoted piece, then a maximal run of plain characters, else
advance one position.  The emitted token is sub match 1, the full match
including any quote characters.  Each step consumes at least one input
character, so a fuel of the remaining length never runs out. -/
def tokenizeGo : Nat → List Char → List String
  | 0, _ => []
  | _ + 1, [] => []
  | fuel + 1, c :: rest =>
    if c == ' ' || c == '\t' then tokenizeGo fuel rest
    else if c == '"' then
      match findClosing '"' rest with
      | some (inner, rem) =>
          String.mk ('"' :: (inner ++ ['"'])) :: tokenizeGo fuel rem
      | none => tokenizeGo fuel rest
    else if c == '\'' then
      match findClosing '\'' rest with
      | some (inner, rem) =>
          String.mk ('\'' :: (inner ++ ['\''])) :: tokenizeGo fuel rem
      | none =>
          String.mk (c :: rest.takeWhile plainChar) ::
            tokenizeGo fuel (rest.dropWhile plainChar)
    else
      String.mk (c :: rest.takeWhile plainChar) ::
        tokenizeGo fuel (rest.dropWhile plainChar)

/-- TokenizeString from mrpe.cpp, as called with sub_match 1: the token
sequence of successive matches of the regex
with group 1 the whole alternation, so a quoted token keeps its quote
characters (they are only removed later, by RemoveQuotes or
BuildValidPath). -/
def TokenizeString (val : String) : List String :=
  tokenizeGo val.toList.length val.toList

/-- Counterexample to C3: tokenizing the example line keeps the single
quotes around the second token, because the call passes sub match 1 (the
whole match); the claimed quote-free token list is not the result and a
quote character survives in a returned token. -/
theorem c3_counterexample :
    TokenizeString "Type 'c:\\a b\\c.com' x d f" ≠
      ["Type", "c:\\a b\\c.com", "x", "d", "f"] ∧
    (TokenizeString "Type 'c:\\a b\\c.com' x d f").any
      (fun t => t.toList.contains '\'') = true := by
  constructor
  · decide
  · decide

/-- C3 as amended: tokenization splits on whitespace except that text
enclosed in matching single or double quotes forms one token, with the
quote characters retained in the token (stripping happens later, outside
TokenizeString); the example line yields five tokens with the quoted one
still wrapped in its quotes. -/
theorem c3_tokenize_example :
    TokenizeString "Type 'c:\\a b\\c.com' x d f" =
      ["Type", "'c:\\a b\\c.com'", "x", "d", "f"] := by
  decide

/-- Split accumulator loop for a one-character delimiter. -/
def splitOnCharGo (d : Char) : List Char → List Char → List (List Char)
  | [], acc => [acc.reverse]
  | c :: rest, acc =>
    if c == d then acc.reverse :: splitOnCharGo d rest []
    else splitOnCharGo d rest (c :: acc)

/-- Modelled from the spec: tools::SplitString (generic tooling outside
src/), for a one-character delimiter as in the caching-token grammar
"(int:yes|no)": splits at every occurrence of the delimiter, keeping
intermediate empty fragments but not appending a trailing empty
fragment. -/
def SplitString (s : String) (d : Char) : List String :=
  let parts := splitOnCharGo d s.toList []
  (parts.dropLast.map String.mk) ++
    (match parts.getLast? with
     | none => []
     | some lst => if lst.isEmpty then [] else [String.mk lst])

/-- std::stoi base 10, as used by ParseCacheAgeToken: skip leading
whitespace, accept an optional sign, then consume the leading run of
decimal digits; no digit raises invalid_argument (none here), a value
outside the int range raises out_of_range (none here); trailing non-digit
characters are ignored. -/
def stoi (s : String) : Option Int :=
  let cs := s.toList.dropWhile isSpaceChar
  let signed : Int × List Char :=
    match cs with
    | '-' :: rest => (-1, rest)
    | '+' :: rest => (1, rest)
    | _ => (1, cs)
  let digits := signed.2.takeWhile Char.isDigit
  if digits.isEmpty then none
  else
    let mag : Nat := digits.foldl (fun a c => a * 10 + (c.toNat - 48)) 0
    let v : Int := signed.1 * (mag : Int)
    if v < -(2 ^ 31) ∨ (2 ^ 31 : Int) - 1 < v then none else some v

/-- ParseCacheAgeToken from mrpe.cpp: a caching token is at least three
characters, wrapped in parentheses, splits on the colon into exactly two
pieces, the age parses via stoi after dropping the opening parenthesis,
and add_age holds exactly when the second piece is the text yes followed
by the closing parenthesis. -/
def ParseCacheAgeToken (text : String) : Option MrpeCachingInfo :=
  let cs := text.toList
  if cs.length < 3 ∨ cs.head? ≠ some '(' ∨ cs.getLast? ≠ some ')' then none
  else
    match SplitString text ':' with
    | [t0, t1] =>
      match stoi (t0.drop 1) with
      | some v => some { max_age := v, add_age := t1 == "yes)" }
      | none => none
    | _ => none

/-- Modelled from the spec: tools::RemoveQuotes (generic tooling outside
src/) strips one matching pair of surrounding single or double quotes,
per the spec wording "token[0] = description (quotes stripped)". -/
def RemoveQuotes (s : String) : String :=
  let cs := s.toList
  if cs.length < 2 then s
  else
    match cs.head?, cs.getLast? with
    | some f, some b =>
      if (f == '"' || f == '\'') && f == b then String.mk (cs.drop 1).dropLast
      else s
    | _, _ => s

/-- Modelled from the spec: filesystem path and marker substitution are
external collaborators.  resolveExe stands for BuildValidPath (marker
substitution plus quote removal) followed by resolution of a relative
path against the configured base directory; fileName stands for the
filename component of the resolved path. -/
structure PathEnv where
  resolveExe : String → String
  fileName : String → String

/-- A trivial concrete environment for evaluating the parser on inputs
whose paths need no substitution or resolution. -/
def envId : PathEnv := { resolveExe := fun s => s, fileName := fun s => s }

/-- The argument string built by MrpeEntry::loadFromString: every argument
token plus a space, then the trailing space removed. -/
def joinSpace (args : List String) : String :=
  let argv := args.foldl (fun acc t => acc ++ t ++ " ") ""
  if argv = "" then argv else argv.dropRight 1

/-- Tail of MrpeEntry::loadFromString after the executable token has been
located: a token of length at most 2 fails (fields stay as they are);
otherwise the executable path is resolved and the entry fields are
populated. -/
def loadExe (env : PathEnv) (e : MrpeEntry) (t0 exe_tok : String)
    (args : List String) : MrpeEntry :=
  if exe_tok.length ≤ 2 then e
  else
    let argv := joinSpace args
    let full := env.resolveExe exe_tok
    { e with
      full_path_name_ := full,
      exe_name_ := env.fileName full,
      command_line_ := full ++ (if argv = "" then "" else " " ++ argv),
      description_ := RemoveQuotes t0 }

/-- MrpeEntry::loadFromString from mrpe.cpp: clear the path, tokenize,
fail on fewer than two tokens, parse the optional caching token (this
assigns the caching_ member even when a later check fails), locate the
executable token, and populate the entry.  With exactly two tokens and a
parsed caching token the C++ reads tokens[2] out of bounds (undefined
behaviour); that case is modelled as the failure result and every theorem
below avoids it. -/
def MrpeEntry.loadFromString (env : PathEnv) (e0 : MrpeEntry)
    (value : String) : MrpeEntry :=
  let e1 := { e0 with full_path_name_ := "" }
  match TokenizeString value with
  | [] => e1
  | [_] => e1
  | t0 :: t1 :: rest =>
    let caching := ParseCacheAgeToken t1
    let e2 := { e1 with caching_ := caching }
    match caching, rest with
    | some _, [] => e2
    | some _, exe_tok :: args => loadExe env e2 t0 exe_tok args
    | none, _ => loadExe env e2 t0 t1 rest

/-- The MrpeEntry constructor is declared in mrpe.h (outside src/).
Modelled from the spec ("CheckEntry: owning-identity string, ...") and
its use in the tests: store the owning user, then parse the check
specification via loadFromString. -/
def MrpeEntry.make (env : PathEnv) (user value : String) : MrpeEntry :=
  MrpeEntry.loadFromString env { run_as_user_ := user } value

/-- MrpeProvider::addParsedChecks: one entry per stored check string,
with an empty owning user. -/
def addParsedChecks (env : PathEnv) (checks : List String) :
    List MrpeEntry :=
  checks.map (fun check => MrpeEntry.make env "" check)

/-- MrpeProvider::addParsedConfig.  kMrpeRemoveAbsentFiles is a build-time
constant declared in mrpe.h (outside src/): modelled from the spec ("a
build-time policy toggling drop-of-missing-executable filtering") as the
parameter removeAbsent; IsValidRegularFile is an external filesystem
predicate, the parameter validFile; the entries appended by the include
processing (filesystem I/O) are the parameter includeEntries. -/
def addParsedConfig (env : PathEnv) (removeAbsent : Bool)
    (validFile : String → Bool) (checks : List String)
    (includeEntries : List MrpeEntry) : List MrpeEntry :=
  let entries := addParsedChecks env checks ++ includeEntries
  if removeAbsent then entries.filter (fun e => validFile e.full_path_name_)
  else entries

/-- MrpeProvider::loadTimeout from mrpe.cpp: the value stored by
setTimeout, as a function of the configured timeout read by GetVal (an
external configuration accessor). -/
def loadTimeout (mrpe_timeout : Nat) : Nat :=
  min 1 mrpe_timeout

/-- C8 fails on the code: loadTimeout computes std::min(1, v), not the
minimum-clamp std::max(1, v) the spec describes, so the configured value
5 yields timeout 1 instead of 5, and every configured value is capped at
1 second (a configured 0 even stays 0).  The spec is clearly the intent
(a poll timeout that can never exceed one second is useless) and the code
a min-for-max slip. -/
theorem c8_loadTimeout_min_bug :
    loadTimeout 5 = 1 ∧ loadTimeout 5 ≠ 5 ∧ ∀ v : Nat, loadTimeout v ≤ 1 := by
  refine ⟨rfl, by decide, ?_⟩
  intro v
  exact Nat.min_le_left 1 v

/-- Counterexample to C7: with the drop-missing-executables policy
inactive, the check line "OnlyOneToken" (fewer than 2 tokens) still
leaves one (blank) entry in the resolved entry set, so the malformed
entry is not dropped. -/
theorem c7_counterexample :
    addParsedConfig envId false (fun _ => false) ["OnlyOneToken"] [] =
      [{ run_as_user_ := "" }] ∧
    addParsedConfig envId false (fun _ => false) ["OnlyOneToken"] [] ≠
      ([] : List MrpeEntry) := by
  constructor
  · decide
  · decide

/-- C7 as amended: a check line with fewer than 2 tokens, or whose
executable token (after consuming an optional caching token) has length
at most 2, fails to parse: the entry fields stay unpopulated (the path is
cleared; a parsed caching token is still recorded).  The blank entry is
removed from the resolved entry set only when the build-time
drop-missing-executables policy is active (its empty path is not a valid
regular file); with the policy inactive the blank entry remains. -/
theorem c7_malformed_spec_handling :
    (∀ (env : PathEnv) (e : MrpeEntry) (value : String),
      (TokenizeString value).length < 2 →
      MrpeEntry.loadFromString env e value = { e with full_path_name_ := "" }) ∧
    (∀ (env : PathEnv) (e : MrpeEntry) (value t0 t1 : String)
        (rest : List String),
      TokenizeString value = t0 :: t1 :: rest →
      ((ParseCacheAgeToken t1 = none → t1.length ≤ 2 →
        MrpeEntry.loadFromString env e value =
          { e with full_path_name_ := "", caching_ := none }) ∧
       (∀ (ci : MrpeCachingInfo) (r : String) (rs : List String),
        ParseCacheAgeToken t1 = some ci → rest = r :: rs → r.length ≤ 2 →
        MrpeEntry.loadFromString env e value =
          { e with full_path_name_ := "", caching_ := some ci }))) ∧
    (∀ (env : PathEnv) (vf : String → Bool) (checks : List String)
        (incl : List MrpeEntry) (e : MrpeEntry),
      vf "" = false → e.full_path_name_ = "" →
      e ∉ addParsedConfig env true vf checks incl) ∧
    (∀ (env : PathEnv) (vf : String → Bool) (checks : List String)
        (incl : List MrpeEntry),
      addParsedConfig env false vf checks incl =
        addParsedChecks env checks ++ incl) := by
  refine ⟨?_, ?_, ?_, ?_⟩
  · intro env e value h
    match hT : TokenizeString value with
    | [] => simp [MrpeEntry.loadFromString, hT]
    | [t] => simp [MrpeEntry.loadFromString, hT]
    | t0 :: t1 :: rest =>
      rw [hT] at h
      simp at h
      omega
  · intro env e value t0 t1 rest hT
    constructor
    · intro hpc hlen
      simp [MrpeEntry.loadFromString, hT, hpc, loadExe, hlen]
    · intro ci r rs hpc hrest hlen
      subst hrest
      simp [MrpeEntry.loadFromString, hT, hpc, loadExe, hlen]
  · intro env vf checks incl e hvf hpath hmem
    simp only [addParsedConfig, if_pos] at hmem
    have hp := List.of_mem_filter hmem
    rw [hpath, hvf] at hp
    exact Bool.noConfusion hp
  · intro env vf checks incl
    rfl

/-- Witness for C7 as amended: the line "D (10:yes) ab" has a caching
token and a too-short executable token, so parsing fails but records the
caching policy; and with the drop policy active the blank entry from
"OnlyOneToken" is not in the resolved set. -/
theorem c7_malformed_spec_handling_witness :
    MrpeEntry.loadFromString envId {} "D (10:yes) ab" =
      { full_path_name_ := "", caching_ := some ⟨10, true⟩ } ∧
    ({} : MrpeEntry) ∉
      addParsedConfig envId true (fun _ => false) ["OnlyOneToken"] [] := by
  constructor
  · have h :=
      ((c7_malformed_spec_handling.2.1 envId {} "D (10:yes) ab" "D" "(10:yes)"
        ["ab"] (by decide)).2) ⟨10, true⟩ "ab" [] (by decide) rfl (by decide)
    rw [h]
  · exact c7_malformed_spec_handling.2.2.1 envId (fun _ => false)
      ["OnlyOneToken"] [] {} rfl rfl

end CmaProvider
